import Mathlib

/-
Verification development for the RU-UA entity classifier
(src/wiki_pedia_data_classify3.0/ru_ua_classify_entities.py).

The Python program merges harvested JSONL records by Wikidata QID
(merge_records_by_qid), resolves place QIDs to country QIDs through a
bounded-depth SPARQL query (build_place_country_map), computes weighted
structured and text evidence scores (structured_score, text_score), and
decides a final label (decide_label).  Each of those functions is embedded
below as an executable Lean definition; machine strings stay `String`,
Python dicts with the fixed key sets produced by the harvesters become
structures, Python ints become `Nat`/`Int`, and the network is an explicit
oracle parameter.
-/

/- ---------------------------------------------------------------------
Python's `sorted` on strings: lexicographic comparison by Unicode code
points.  Lean's built-in `String` order is implemented on byte iterators,
which the kernel cannot evaluate, so we define the same order directly on
`String.data` (the list of chars) and sort with `List.insertionSort`.
`sorted` on a Python `set` is modelled as `pySortedSet` = dedup then sort;
a set has no duplicates and `sorted` returns them in increasing order.
--------------------------------------------------------------------- -/

/-- Lexicographic less-or-equal on char lists, comparing code points. -/
def lexLe : List Char → List Char → Bool
  | [], _ => true
  | _ :: _, [] => false
  | a :: as, b :: bs =>
    if a.toNat < b.toNat then true
    else if b.toNat < a.toNat then false
    else lexLe as bs

theorem char_toNat_inj {a b : Char} (h : a.toNat = b.toNat) : a = b :=
  Char.ext (UInt32.ext h)

theorem lexLe_total : ∀ x y : List Char, lexLe x y = true ∨ lexLe y x = true := by
  intro x
  induction x with
  | nil => intro y; left; rfl
  | cons a as ih =>
    intro y
    cases y with
    | nil => right; rfl
    | cons b bs =>
      simp only [lexLe]
      rcases Nat.lt_trichotomy a.toNat b.toNat with h | h | h
      · left; simp [h]
      · have hne : ¬ a.toNat < b.toNat := by omega
        have hne' : ¬ b.toNat < a.toNat := by omega
        rcases ih bs with h1 | h1
        · left; simp [hne, hne', h1]
        · right; simp [hne, hne', h1]
      · right; simp [h]

theorem lexLe_antisymm : ∀ x y : List Char,
    lexLe x y = true → lexLe y x = true → x = y := by
  intro x
  induction x with
  | nil =>
    intro y _ h2
    cases y with
    | nil => rfl
    | cons b bs => simp [lexLe] at h2
  | cons a as ih =>
    intro y h1 h2
    cases y with
    | nil => simp [lexLe] at h1
    | cons b bs =>
      simp only [lexLe] at h1 h2
      rcases Nat.lt_trichotomy a.toNat b.toNat with h | h | h
      · have : ¬ b.toNat < a.toNat := by omega
        simp [h, this] at h2
      · have hne : ¬ a.toNat < b.toNat := by omega
        have hne' : ¬ b.toNat < a.toNat := by omega
        simp only [hne, hne', if_neg, if_false] at h1 h2
        have := ih bs (by simpa using h1) (by simpa using h2)
        rw [char_toNat_inj h, this]
      · have : ¬ a.toNat < b.toNat := by omega
        simp [h, this] at h1

theorem lexLe_trans : ∀ x y z : List Char,
    lexLe x y = true → lexLe y z = true → lexLe x z = true := by
  intro x
  induction x with
  | nil => intro y z _ _; rfl
  | cons a as ih =>
    intro y z h1 h2
    cases y with
    | nil => simp [lexLe] at h1
    | cons b bs =>
      cases z with
      | nil => simp [lexLe] at h2
      | cons c cs =>
        simp only [lexLe] at h1 h2 ⊢
        rcases Nat.lt_trichotomy a.toNat b.toNat with hab | hab | hab <;>
          rcases Nat.lt_trichotomy b.toNat c.toNat with hbc | hbc | hbc
        all_goals first
          | (have hac : a.toNat < c.toNat := by omega
             simp [hac])
          | (exfalso
             first
               | (have h' : ¬ a.toNat < b.toNat := by omega
                  have h'' : b.toNat < a.toNat := by omega
                  simp [h', h''] at h1)
               | (have h' : ¬ b.toNat < c.toNat := by omega
                  have h'' : c.toNat < b.toNat := by omega
                  simp [h', h''] at h2))
          | (have h1' : ¬ a.toNat < b.toNat := by omega
             have h1'' : ¬ b.toNat < a.toNat := by omega
             have h2' : ¬ b.toNat < c.toNat := by omega
             have h2'' : ¬ c.toNat < b.toNat := by omega
             have hac : ¬ a.toNat < c.toNat := by omega
             have hca : ¬ c.toNat < a.toNat := by omega
             simp only [h1', h1'', if_neg, if_false] at h1
             simp only [h2', h2'', if_neg, if_false] at h2
             simp only [hac, hca, if_neg, if_false]
             exact ih bs cs (by simpa using h1) (by simpa using h2))

/-- Python string `<=`: code-point lexicographic order, as a relation. -/
def pyLe (a b : String) : Prop := lexLe a.data b.data = true

instance : DecidableRel pyLe := fun _ _ => instDecidableEqBool _ _

instance : IsTotal String pyLe := ⟨fun a b => lexLe_total a.data b.data⟩

instance : IsTrans String pyLe := ⟨fun a b c => lexLe_trans a.data b.data c.data⟩

theorem string_data_inj {a b : String} (h : a.data = b.data) : a = b := by
  cases a; cases b; exact congrArg String.mk h

instance : IsAntisymm String pyLe :=
  ⟨fun a b h1 h2 => string_data_inj (lexLe_antisymm a.data b.data h1 h2)⟩

/-- Python `sorted(set(l))` for a list of strings: drop duplicates, sort
by code points. -/
def pySortedSet (l : List String) : List String :=
  (l.dedup).insertionSort pyLe

theorem mem_pySortedSet {x : String} {l : List String} :
    x ∈ pySortedSet l ↔ x ∈ l := by
  unfold pySortedSet
  rw [(List.perm_insertionSort pyLe l.dedup).mem_iff, List.mem_dedup]

theorem nodup_pySortedSet (l : List String) : (pySortedSet l).Nodup :=
  (List.perm_insertionSort pyLe l.dedup).nodup_iff.mpr (List.nodup_dedup l)

theorem pySortedSet_append_comm (a b : List String) :
    pySortedSet (a ++ b) = pySortedSet (b ++ a) :=
  List.eq_of_perm_of_sorted
    (((List.perm_insertionSort pyLe _).trans
      (List.perm_append_comm.dedup)).trans (List.perm_insertionSort pyLe _).symm)
    (List.sorted_insertionSort pyLe _)
    (List.sorted_insertionSort pyLe _)

/-- Python `sorted(set(a) | set(b))`, as used by the merge for every
set-valued field. -/
def pySortedUnion (a b : List String) : List String := pySortedSet (a ++ b)

theorem pySortedUnion_comm (a b : List String) :
    pySortedUnion a b = pySortedUnion b a :=
  pySortedSet_append_comm a b

theorem mem_pySortedUnion {x : String} {a b : List String} :
    x ∈ pySortedUnion a b ↔ x ∈ a ∨ x ∈ b := by
  unfold pySortedUnion
  rw [mem_pySortedSet, List.mem_append]

theorem nodup_pySortedUnion (a b : List String) : (pySortedUnion a b).Nodup :=
  nodup_pySortedSet _

/- ---------------------------------------------------------------------
Data model.  The harvesters (ru_ua_harvest_wikidata_entities.py,
ru_ua_harvest_wikipedia_navboxes.py) emit JSONL records of the fixed shape
  qid, uri, source (a dict with type/page/hint),
  labels / descriptions / sitelinks / wiki_titles (three language keys),
  aliases (en/uk/ru lists), instance_of (list),
  raw_attrib_qids (keys among P27 P17 P495 P159 P131 P276 P19 P740 P551).
Language maps become a three-field structure: the classifier touches
exactly the keys en/ru/uk (sitelinks' keys enwiki/ruwiki/ukwiki play the
same role).  A JSON value that is absent or null is `none` for scalar
fields and `[]` for list fields; the Python code reads every such field
through a falsy-guarded access (`.get(...) or default`, `setdefault`), so
the two are indistinguishable to it.  The merge-produced aggregate field
`_sources` is the `sources` field here, `[]` on freshly harvested rows.
--------------------------------------------------------------------- -/

inductive Lang
  | en
  | ru
  | uk
deriving DecidableEq

def Lang.toStr : Lang → String
  | .en => "en"
  | .ru => "ru"
  | .uk => "uk"

structure LangMap (α : Type) where
  en : α
  ru : α
  uk : α
deriving DecidableEq

def LangMap.get {α : Type} (m : LangMap α) : Lang → α
  | .en => m.en
  | .ru => m.ru
  | .uk => m.uk

/-- Wikidata property ids used as structured evidence (ATTRIB_PROP_IDS). -/
inductive Pid
  | p27
  | p17
  | p495
  | p159
  | p131
  | p276
  | p19
  | p740
  | p551
deriving DecidableEq

def Pid.toStr : Pid → String
  | .p27 => "P27"
  | .p17 => "P17"
  | .p495 => "P495"
  | .p159 => "P159"
  | .p131 => "P131"
  | .p276 => "P276"
  | .p19 => "P19"
  | .p740 => "P740"
  | .p551 => "P551"

/-- The raw_attrib_qids dict: per attribution property, a list of target
QIDs.  An absent key is the empty list (the code reads it through
`raw.get(pid) or []`). -/
structure PidMap where
  p27 : List String
  p17 : List String
  p495 : List String
  p159 : List String
  p131 : List String
  p276 : List String
  p19 : List String
  p740 : List String
  p551 : List String
deriving DecidableEq

def PidMap.get (m : PidMap) : Pid → List String
  | .p27 => m.p27
  | .p17 => m.p17
  | .p495 => m.p495
  | .p159 => m.p159
  | .p131 => m.p131
  | .p276 => m.p276
  | .p19 => m.p19
  | .p740 => m.p740
  | .p551 => m.p551

def emptyPidMap : PidMap := ⟨[], [], [], [], [], [], [], [], []⟩

/-- The source descriptor dict written by the harvesters. -/
structure Src where
  srcType : Option String
  srcPage : Option String
  srcHint : Option String
deriving DecidableEq

/-- One JSONL record as consumed by the classifier. -/
structure Record where
  qid : Option String
  labels : LangMap (Option String)
  descriptions : LangMap (Option String)
  sitelinks : LangMap (Option String)
  wiki_titles : LangMap (Option String)
  aliases : LangMap (List String)
  instance_of : List String
  raw_attrib_qids : PidMap
  source : Option Src
  sources : List (Option Src)
deriving DecidableEq

def emptyLangOpt : LangMap (Option String) := ⟨none, none, none⟩

def emptyAliases : LangMap (List String) := ⟨[], [], []⟩

def emptyRecord : Record :=
  ⟨none, emptyLangOpt, emptyLangOpt, emptyLangOpt, emptyLangOpt,
   emptyAliases, [], emptyPidMap, none, []⟩

/- Country QID constants of the classifier. -/

def Q_RUSSIA : String := "Q159"

def Q_UKRAINE : String := "Q212"

def Q_USA : String := "Q30"

def Q_CHINA : String := "Q148"

def Q_GERMANY : String := "Q183"

def Q_UK : String := "Q145"

def Q_FRANCE : String := "Q142"

def Q_POLAND : String := "Q36"

def Q_BELARUS : String := "Q184"

def Q_EU : String := "Q458"

/-- OTHER_COUNTRY_HINTS (a Python set; membership is all that is used). -/
def OTHER_COUNTRY_HINTS : List String :=
  [Q_USA, Q_CHINA, Q_GERMANY, Q_UK, Q_FRANCE, Q_POLAND, Q_BELARUS, Q_EU]

def ATTRIB_PROP_IDS : List Pid :=
  [.p27, .p17, .p495, .p159, .p131, .p276, .p19, .p740, .p551]

def WEIGHT_STRONG : Nat := 4

def WEIGHT_MED : Nat := 2

def WEIGHT_WEAK : Nat := 1

/- ---------------------------------------------------------------------
The decider (decide_label, lines 329-342).  Scores are sums of the
non-negative weights, hence Nat; the threshold comes from the int-typed
CLI flag, hence Int.
--------------------------------------------------------------------- -/

def decide_label (ru_score ua_score other_score : Nat)
    (other_strict_threshold : Int) : String :=
  if 0 < ru_score ∧ 0 < ua_score then "mixed"
  else if 0 < ru_score ∧ ua_score = 0 then "Russian"
  else if 0 < ua_score ∧ ru_score = 0 then "Ukraine"
  else if (other_score : Int) ≥ other_strict_threshold then "other"
  else "mixed"

/-- C1: for every non-negative score triple and every threshold, the
decider returns mixed when both the RU and UA scores are positive (for
every Other score); the RU label when RU is positive and UA is zero; the
UA label when UA is positive and RU is zero; and with both RU and UA zero
it returns other exactly when the Other score reaches the threshold, else
mixed. -/
theorem decide_label_cases (ru ua other : Nat) (t : Int) :
    (0 < ru → 0 < ua → decide_label ru ua other t = "mixed") ∧
    (0 < ru → ua = 0 → decide_label ru ua other t = "Russian") ∧
    (0 < ua → ru = 0 → decide_label ru ua other t = "Ukraine") ∧
    (ru = 0 → ua = 0 →
      (decide_label ru ua other t = "other" ↔ (other : Int) ≥ t) ∧
      ((other : Int) < t → decide_label ru ua other t = "mixed")) := by
  unfold decide_label
  refine ⟨?_, ?_, ?_, ?_⟩
  · intro h1 h2
    rw [if_pos ⟨h1, h2⟩]
  · intro h1 h2
    rw [if_neg (by omega), if_pos ⟨h1, h2⟩]
  · intro h1 h2
    rw [if_neg (by omega), if_neg (by omega), if_pos ⟨h1, h2⟩]
  · intro h1 h2
    subst h1
    subst h2
    rw [if_neg (by omega), if_neg (by omega), if_neg (by omega)]
    constructor
    · constructor
      · intro heq
        by_contra hn
        rw [if_neg hn] at heq
        exact absurd heq (by decide)
      · intro h
        rw [if_pos h]
    · intro h
      rw [if_neg (by omega)]

/-- Witness for decide_label_cases at concrete scores. -/
theorem decide_label_cases_witness :
    decide_label 3 2 0 4 = "mixed" ∧ decide_label 3 0 7 4 = "Russian" ∧
    decide_label 0 2 7 4 = "Ukraine" ∧ decide_label 0 0 4 4 = "other" ∧
    decide_label 0 0 3 4 = "mixed" :=
  ⟨(decide_label_cases 3 2 0 4).1 (by norm_num) (by norm_num),
   (decide_label_cases 3 0 7 4).2.1 (by norm_num) rfl,
   (decide_label_cases 0 2 7 4).2.2.1 (by norm_num) rfl,
   ((decide_label_cases 0 0 4 4).2.2.2 rfl rfl).1.mpr (by norm_num),
   ((decide_label_cases 0 0 3 4).2.2.2 rfl rfl).2 (by norm_num)⟩

/- ---------------------------------------------------------------------
The merge (merge_records_by_qid, lines 140-183).  Python's insertion-
ordered dict `merged` is an association list updated in place; the
function returns its values in insertion order.  A record whose qid is
falsy (absent, null or empty) is skipped.  The first record seen for a
qid is stored as the canonical record with `_sources` set to the
singleton of its own source; every later record with the same qid is
folded in field by field.
--------------------------------------------------------------------- -/

/-- Python falsiness of an optional string (`not val`). -/
def strFalsy : Option String → Bool
  | none => true
  | some s => decide (s = "")

/-- Scalar per-language rule (lines 160-164): an incoming value fills a
slot only when the held value is falsy and the incoming one truthy. -/
def mergeOptField (mv rv : Option String) : Option String :=
  if strFalsy mv && !(strFalsy rv) then rv else mv

def mergeLangOpt (m r : LangMap (Option String)) : LangMap (Option String) :=
  ⟨mergeOptField m.en r.en, mergeOptField m.ru r.ru, mergeOptField m.uk r.uk⟩

/-- Alias rule (lines 177-182): per language, sorted set union. -/
def mergeAliases (m r : LangMap (List String)) : LangMap (List String) :=
  ⟨pySortedUnion m.en r.en, pySortedUnion m.ru r.ru, pySortedUnion m.uk r.uk⟩

/-- raw_attrib_qids rule (lines 169-176): per property, sorted set
union over the union of the present keys. -/
def mergePidMap (m r : PidMap) : PidMap :=
  ⟨pySortedUnion m.p27 r.p27, pySortedUnion m.p17 r.p17,
   pySortedUnion m.p495 r.p495, pySortedUnion m.p159 r.p159,
   pySortedUnion m.p131 r.p131, pySortedUnion m.p276 r.p276,
   pySortedUnion m.p19 r.p19, pySortedUnion m.p740 r.p740,
   pySortedUnion m.p551 r.p551⟩

/-- The else branch of the merge loop (lines 156-182): fold one more raw
record into the canonical record held for its qid. -/
def merge2 (m r : Record) : Record :=
  { m with
    sources := m.sources ++ [r.source]
    labels := mergeLangOpt m.labels r.labels
    descriptions := mergeLangOpt m.descriptions r.descriptions
    sitelinks := mergeLangOpt m.sitelinks r.sitelinks
    wiki_titles := mergeLangOpt m.wiki_titles r.wiki_titles
    instance_of := pySortedUnion m.instance_of r.instance_of
    raw_attrib_qids := mergePidMap m.raw_attrib_qids r.raw_attrib_qids
    aliases := mergeAliases m.aliases r.aliases }

/-- First-occurrence branch (lines 149-155): the raw record is stored as
is (the list-field setdefaults are identities under the totalized record
shape) and `_sources` is overwritten with the singleton of the record's
own source. -/
def initRecord (r : Record) : Record := { r with sources := [r.source] }

/-- The dict key a record is merged under: its qid, when truthy. -/
def recKey (r : Record) : Option String :=
  match r.qid with
  | none => none
  | some q => if q = "" then none else some q

def hasKey (acc : List (String × Record)) (q : String) : Bool :=
  acc.any (fun p => p.1 == q)

def updateAssoc (acc : List (String × Record)) (q : String) (r : Record) :
    List (String × Record) :=
  acc.map (fun p => if p.1 = q then (p.1, merge2 p.2 r) else p)

def mergeStep (acc : List (String × Record)) (r : Record) :
    List (String × Record) :=
  match recKey r with
  | none => acc
  | some q =>
    if hasKey acc q then updateAssoc acc q r else acc ++ [(q, initRecord r)]

def merge_records_by_qid (records : List Record) : List Record :=
  (records.foldl mergeStep []).map Prod.snd

/- ---------------------------------------------------------------------
Merge bookkeeping lemmas: every accumulator entry keeps a truthy qid
equal to its key, keys stay distinct, and records with falsy qids leave
no trace.
--------------------------------------------------------------------- -/

theorem recKey_merge2 (m r : Record) : recKey (merge2 m r) = recKey m := rfl

theorem recKey_initRecord (r : Record) : recKey (initRecord r) = recKey r := rfl

def GoodAcc (acc : List (String × Record)) : Prop :=
  (∀ p ∈ acc, recKey p.2 = some p.1) ∧ (acc.map Prod.fst).Nodup

theorem hasKey_eq_false_iff {acc : List (String × Record)} {q : String} :
    hasKey acc q = false ↔ ∀ p ∈ acc, p.1 ≠ q := by
  simp [hasKey, List.any_eq_false]

theorem hasKey_append (a b : List (String × Record)) (q : String) :
    hasKey (a ++ b) q = (hasKey a q || hasKey b q) := by
  simp [hasKey, List.any_append]

theorem updateAssoc_fst (acc : List (String × Record)) (q : String) (r : Record) :
    (updateAssoc acc q r).map Prod.fst = acc.map Prod.fst := by
  induction acc with
  | nil => rfl
  | cons p rest ih =>
    simp only [updateAssoc, List.map_cons] at ih ⊢
    by_cases h : p.1 = q
    · simp [h, ih]
    · simp [h, ih]

theorem mergeStep_good {acc : List (String × Record)} (h : GoodAcc acc)
    (r : Record) : GoodAcc (mergeStep acc r) := by
  rcases hk : recKey r with _ | q
  · simpa [mergeStep, hk] using h
  · by_cases hh : hasKey acc q = true
    · simp only [mergeStep, hk, if_pos hh]
      refine ⟨?_, ?_⟩
      · intro p hp
        simp only [updateAssoc, List.mem_map] at hp
        obtain ⟨p0, hp0, hp0e⟩ := hp
        by_cases he : p0.1 = q
        · rw [if_pos he] at hp0e
          rw [← hp0e]
          simpa [recKey_merge2, ← he] using h.1 p0 hp0
        · rw [if_neg he] at hp0e
          rw [← hp0e]
          exact h.1 p0 hp0
      · rw [updateAssoc_fst]
        exact h.2
    · simp only [mergeStep, hk, if_neg hh]
      refine ⟨?_, ?_⟩
      · intro p hp
        rcases List.mem_append.mp hp with hp1 | hp1
        · exact h.1 p hp1
        · rcases List.mem_singleton.mp hp1 with rfl
          simpa [recKey_initRecord] using hk
      · rw [List.map_append]
        simp only [List.map_cons, List.map_nil]
        rw [List.nodup_append]
        refine ⟨h.2, List.nodup_singleton q, ?_⟩
        intro x hx hq
        simp only [List.mem_singleton] at hq
        subst hq
        have hf : ∀ p ∈ acc, p.1 ≠ x :=
          hasKey_eq_false_iff.mp (Bool.eq_false_iff.mpr hh)
        obtain ⟨p, hp, hpe⟩ := List.mem_map.mp hx
        exact hf p hp hpe

theorem foldl_mergeStep_good (rs : List Record) :
    ∀ acc : List (String × Record), GoodAcc acc →
      GoodAcc (rs.foldl mergeStep acc) := by
  induction rs with
  | nil => intro acc h; exact h
  | cons r rest ih =>
    intro acc h
    exact ih _ (mergeStep_good h r)

theorem foldl_fresh (pairs : List (String × Record)) :
    ∀ acc : List (String × Record),
      (∀ p ∈ pairs, recKey p.2 = some p.1) →
      (pairs.map Prod.fst).Nodup →
      (∀ p ∈ pairs, hasKey acc p.1 = false) →
      (pairs.map Prod.snd).foldl mergeStep acc =
        acc ++ pairs.map (fun p => (p.1, initRecord p.2)) := by
  induction pairs with
  | nil => intro acc _ _ _; simp
  | cons p rest ih =>
    intro acc hkeys hnd hfresh
    simp only [List.map_cons, List.foldl_cons]
    have hstep : mergeStep acc p.2 = acc ++ [(p.1, initRecord p.2)] := by
      have hk : recKey p.2 = some p.1 := hkeys p (by simp)
      have hh : hasKey acc p.1 = false := hfresh p (by simp)
      simp [mergeStep, hk, hh]
    rw [hstep]
    have hnd' : (rest.map Prod.fst).Nodup := (List.nodup_cons.mp hnd).2
    have hnotmem : p.1 ∉ rest.map Prod.fst := (List.nodup_cons.mp hnd).1
    rw [ih (acc ++ [(p.1, initRecord p.2)])
      (fun x hx => hkeys x (List.mem_cons_of_mem p hx)) hnd'
      (fun x hx => by
        rw [hasKey_append, Bool.or_eq_false_iff]
        refine ⟨hfresh x (List.mem_cons_of_mem p hx), ?_⟩
        rw [hasKey_eq_false_iff]
        intro y hy
        rcases List.mem_singleton.mp hy with rfl
        intro he
        exact hnotmem (he ▸ List.mem_map_of_mem Prod.fst hx))]
    simp

/-- C2 counterexample records: two raw records with the same qid and
different sources. -/
def srcW : Src := ⟨some "wikidata_sparql", none, some "hintW"⟩

def srcN : Src := ⟨some "navbox", none, some "hintN"⟩

def recA : Record := { emptyRecord with qid := some "Q1", source := some srcW }

def recB : Record := { emptyRecord with qid := some "Q1", source := some srcN }

/-- C2 counterexample: merging the merge output again is not the
identity — the canonical record for Q1 has its two-element `_sources`
provenance list reset to the singleton of the surviving record's own
source, because the first-occurrence branch always overwrites
`_sources`. -/
theorem merge_not_idempotent :
    merge_records_by_qid (merge_records_by_qid [recA, recB]) ≠
      merge_records_by_qid [recA, recB] := by decide

/-- C2 amended: re-merging the merge output yields the same canonical
records on every field except the `_sources` provenance list, which is
reset to the singleton of each record's own top-level source. -/
theorem merge_twice_resets_sources (rs : List Record) :
    merge_records_by_qid (merge_records_by_qid rs) =
      (merge_records_by_qid rs).map
        (fun r => { r with sources := [r.source] }) := by
  have hgood : GoodAcc (rs.foldl mergeStep []) :=
    foldl_mergeStep_good rs [] ⟨by simp, by simp⟩
  show merge_records_by_qid ((rs.foldl mergeStep []).map Prod.snd) = _
  unfold merge_records_by_qid
  rw [foldl_fresh (rs.foldl mergeStep []) [] hgood.1 hgood.2 (by
    intro p _
    rfl)]
  rw [List.nil_append, List.map_map, List.map_map]
  rfl

/-- C8 counterexample record: no qid at all. -/
def recNoQid : Record := { emptyRecord with source := some srcN }

/-- C8 counterexample: the merge output for an input containing a
malformed (qid-less) record is byte-identical to the output for the
input without it, so the merge keeps no count of dropped records. -/
theorem merge_leaves_no_trace_of_malformed :
    recNoQid.qid = none ∧
    merge_records_by_qid [recA, recNoQid] = merge_records_by_qid [recA] := by
  constructor
  · rfl
  · decide

/-- C8 amended: a raw record with a falsy qid is skipped by the merge —
the run never aborts and every other record merges exactly as if the
malformed ones were absent; no count of the dropped records is kept. -/
theorem merge_skips_malformed (rs : List Record) :
    merge_records_by_qid rs =
      merge_records_by_qid (rs.filter (fun r => (recKey r).isSome)) := by
  unfold merge_records_by_qid
  suffices h : ∀ acc : List (String × Record),
      rs.foldl mergeStep acc =
        (rs.filter (fun r => (recKey r).isSome)).foldl mergeStep acc by
    rw [h]
  induction rs with
  | nil => intro acc; rfl
  | cons r rest ih =>
    intro acc
    rcases hk : recKey r with _ | q
    · have hskip : mergeStep acc r = acc := by simp [mergeStep, hk]
      simp only [List.foldl_cons, hskip, List.filter_cons, hk, Option.isSome]
      exact ih acc
    · simp only [List.foldl_cons, List.filter_cons, hk, Option.isSome]
      exact ih (mergeStep acc r)

/-- Merging exactly two records that share a truthy qid reduces to one
application of the two-record fold. -/
theorem merge_pair (r1 r2 : Record) (q : String) (h1 : r1.qid = some q)
    (h2 : r2.qid = some q) (hq : q ≠ "") :
    merge_records_by_qid [r1, r2] = [merge2 (initRecord r1) r2] := by
  have k1 : recKey r1 = some q := by simp [recKey, h1, hq]
  have k2 : recKey r2 = some q := by simp [recKey, h2, hq]
  simp [merge_records_by_qid, mergeStep, k1, k2, hasKey, updateAssoc]

/-- C3 counterexample records: same qid, conflicting non-empty English
labels from two different sources. -/
def recX : Record :=
  { emptyRecord with
    qid := some "Q1", labels := ⟨some "X", none, none⟩, source := some srcW }

def recY : Record :=
  { emptyRecord with
    qid := some "Q1", labels := ⟨some "Y", none, none⟩, source := some srcN }

/-- C3 counterexample: swapping the physical order of two records that
share a qid changes the merged scalar label field, so scalar fields do
not depend only on a declared source-precedence order. -/
theorem merge_scalar_order_dependent :
    (merge_records_by_qid [recX, recY]).map Record.labels ≠
      (merge_records_by_qid [recY, recX]).map Record.labels := by decide

/-- C3 amended: for two records sharing a truthy qid, each scalar
per-language field of the merged record keeps the first record's value
and takes the second record's value exactly when the first is falsy and
the second truthy — first-non-empty wins in physical input order; no
source-precedence parameter exists. -/
theorem merge_scalar_first_nonempty (r1 r2 : Record) (q : String)
    (h1 : r1.qid = some q) (h2 : r2.qid = some q) (hq : q ≠ "")
    (lang : Lang) :
    (merge_records_by_qid [r1, r2]).map (fun m => m.labels.get lang) =
      [if strFalsy (r1.labels.get lang) && !(strFalsy (r2.labels.get lang))
        then r2.labels.get lang else r1.labels.get lang] ∧
    (merge_records_by_qid [r1, r2]).map (fun m => m.descriptions.get lang) =
      [if strFalsy (r1.descriptions.get lang) &&
          !(strFalsy (r2.descriptions.get lang))
        then r2.descriptions.get lang else r1.descriptions.get lang] := by
  constructor <;> rw [merge_pair r1 r2 q h1 h2 hq] <;> cases lang <;> rfl

/-- Witness for merge_scalar_first_nonempty: with both labels non-empty
the first record's label survives. -/
theorem merge_scalar_first_nonempty_witness :
    (merge_records_by_qid [recX, recY]).map (fun m => m.labels.get Lang.en) =
      [some "X"] := by
  rw [(merge_scalar_first_nonempty recX recY "Q1" rfl rfl (by decide)
    Lang.en).1]
  decide

/-- C4: for two records sharing a truthy qid, every set-valued field of
the merged record (per-language aliases, instance_of, per-property
raw_attrib_qids) is the same whichever record comes first, contains
exactly the union of the two records' entries, and is duplicate-free. -/
theorem merge_set_fields_commutative (r1 r2 : Record) (q : String)
    (h1 : r1.qid = some q) (h2 : r2.qid = some q) (hq : q ≠ "") :
    (merge_records_by_qid [r1, r2]).map Record.aliases =
      (merge_records_by_qid [r2, r1]).map Record.aliases ∧
    (merge_records_by_qid [r1, r2]).map Record.instance_of =
      (merge_records_by_qid [r2, r1]).map Record.instance_of ∧
    (merge_records_by_qid [r1, r2]).map Record.raw_attrib_qids =
      (merge_records_by_qid [r2, r1]).map Record.raw_attrib_qids ∧
    (∀ lang : Lang, ∀ x : String,
      x ∈ (((merge_records_by_qid [r1, r2]).map
          (fun m => m.aliases.get lang)).flatten) ↔
        x ∈ r1.aliases.get lang ∨ x ∈ r2.aliases.get lang) ∧
    (∀ lang : Lang,
      ((((merge_records_by_qid [r1, r2]).map
          (fun m => m.aliases.get lang)).flatten)).Nodup) ∧
    (∀ x : String,
      x ∈ (((merge_records_by_qid [r1, r2]).map Record.instance_of).flatten) ↔
        x ∈ r1.instance_of ∨ x ∈ r2.instance_of) ∧
    ((((merge_records_by_qid [r1, r2]).map Record.instance_of).flatten)).Nodup ∧
    (∀ pid : Pid, ∀ x : String,
      x ∈ (((merge_records_by_qid [r1, r2]).map
          (fun m => m.raw_attrib_qids.get pid)).flatten) ↔
        x ∈ r1.raw_attrib_qids.get pid ∨ x ∈ r2.raw_attrib_qids.get pid) ∧
    (∀ pid : Pid,
      ((((merge_records_by_qid [r1, r2]).map
          (fun m => m.raw_attrib_qids.get pid)).flatten)).Nodup) := by
  have e12 := merge_pair r1 r2 q h1 h2 hq
  have e21 := merge_pair r2 r1 q h2 h1 hq
  refine ⟨?_, ?_, ?_, ?_, ?_, ?_, ?_, ?_, ?_⟩
  · rw [e12, e21]
    simp only [List.map_cons, List.map_nil]
    congr 1
    show mergeAliases r1.aliases r2.aliases = mergeAliases r2.aliases r1.aliases
    simp only [mergeAliases, pySortedUnion_comm]
  · rw [e12, e21]
    simp only [List.map_cons, List.map_nil]
    congr 1
    show pySortedUnion r1.instance_of r2.instance_of =
      pySortedUnion r2.instance_of r1.instance_of
    exact pySortedUnion_comm _ _
  · rw [e12, e21]
    simp only [List.map_cons, List.map_nil]
    congr 1
    show mergePidMap r1.raw_attrib_qids r2.raw_attrib_qids =
      mergePidMap r2.raw_attrib_qids r1.raw_attrib_qids
    simp only [mergePidMap, pySortedUnion_comm]
  · intro lang x
    rw [e12]
    simp only [List.map_cons, List.map_nil, List.flatten_cons,
      List.flatten_nil, List.append_nil]
    cases lang <;> exact mem_pySortedUnion
  · intro lang
    rw [e12]
    simp only [List.map_cons, List.map_nil, List.flatten_cons,
      List.flatten_nil, List.append_nil]
    cases lang <;> exact nodup_pySortedUnion _ _
  · intro x
    rw [e12]
    simp only [List.map_cons, List.map_nil, List.flatten_cons,
      List.flatten_nil, List.append_nil]
    exact mem_pySortedUnion
  · rw [e12]
    simp only [List.map_cons, List.map_nil, List.flatten_cons,
      List.flatten_nil, List.append_nil]
    exact nodup_pySortedUnion _ _
  · intro pid x
    rw [e12]
    simp only [List.map_cons, List.map_nil, List.flatten_cons,
      List.flatten_nil, List.append_nil]
    cases pid <;> exact mem_pySortedUnion
  · intro pid
    rw [e12]
    simp only [List.map_cons, List.map_nil, List.flatten_cons,
      List.flatten_nil, List.append_nil]
    cases pid <;> exact nodup_pySortedUnion _ _

/-- Witness for merge_set_fields_commutative at concrete records. -/
theorem merge_set_fields_commutative_witness :
    (merge_records_by_qid [recX, recY]).map Record.aliases =
      (merge_records_by_qid [recY, recX]).map Record.aliases :=
  (merge_set_fields_commutative recX recY "Q1" rfl rfl (by decide)).1

/- ---------------------------------------------------------------------
Text evidence (TEXT_PATTERNS, lines 78-100, and text_score, lines
250-285).  Regular-expression matching is abstracted as a parameter
`search : pattern → text → Bool` (Python `re.search` on the lowercased
text); every theorem below holds for every matcher.  Lowercasing is
String.toLower, standing in for Python str.lower().
--------------------------------------------------------------------- -/

def PAT_RUSSIAN : LangMap (List String) :=
  ⟨["\\brussian\\b", "\\brussia\\b", "\\brf\\b", "\\brussian[- ]backed\\b"],
   ["\\bросси", "\\bрусск", "\\bрф\\b"],
   ["\\bросі", "\\bросійськ", "\\bрф\\b"]⟩

def PAT_UKRAINE : LangMap (List String) :=
  ⟨["\\bukrain", "\\bukraine\\b"],
   ["\\bукраин", "\\bукраинец", "\\bукраинка"],
   ["\\bукраїн", "\\bукраїнець", "\\bукраїнка"]⟩

def PAT_AMERICAN : LangMap (List String) :=
  ⟨["\\bamerican\\b", "\\bu\\.?s\\.?\\b", "\\bunited states\\b"],
   ["\\bамерикан"],
   ["\\bамерикан"]⟩

def PAT_CHINESE : LangMap (List String) :=
  ⟨["\\bchinese\\b", "\\bchina\\b", "\\bprc\\b"],
   ["\\bкита", "\\bкнр\\b"],
   ["\\bкита", "\\bкнр\\b"]⟩

/-- Running score state of the two scorers: the three buckets and the
audit hit list, in append order. -/
structure ScoreAcc where
  ru : Nat
  ua : Nat
  other : Nat
  hits : List String
deriving DecidableEq

def zeroScore : ScoreAcc := ⟨0, 0, 0, []⟩

/-- Python `x or ""` read of an optional text field. -/
def optText (v : Option String) : String := v.getD ""

/-- The scan closure of text_score (lines 257-277): empty text returns
immediately; otherwise each matching pattern adds WEAK weight to its
bucket and records a hit. -/
def scanOne (search : String → String → Bool) (lang : Lang) (text : String)
    (acc : ScoreAcc) : ScoreAcc :=
  if text = "" then acc
  else
    let t := text.toLower
    let ln := lang.toStr
    let acc1 := (PAT_RUSSIAN.get lang).foldl (fun a pat =>
      if search pat t then
        { a with ru := a.ru + WEIGHT_WEAK,
                 hits := a.hits ++ [s!"text:{ln}:RU:{pat}"] }
      else a) acc
    let acc2 := (PAT_UKRAINE.get lang).foldl (fun a pat =>
      if search pat t then
        { a with ua := a.ua + WEIGHT_WEAK,
                 hits := a.hits ++ [s!"text:{ln}:UA:{pat}"] }
      else a) acc1
    let acc3 := (PAT_AMERICAN.get lang).foldl (fun a pat =>
      if search pat t then
        { a with other := a.other + WEIGHT_WEAK,
                 hits := a.hits ++ [s!"text:{ln}:OTHER:American:{pat}"] }
      else a) acc2
    (PAT_CHINESE.get lang).foldl (fun a pat =>
      if search pat t then
        { a with other := a.other + WEIGHT_WEAK,
                 hits := a.hits ++ [s!"text:{ln}:OTHER:Chinese:{pat}"] }
      else a) acc3

/-- One language pass of text_score (lines 279-283): label, description,
then each alias. -/
def scanLang (search : String → String → Bool) (e : Record) (lang : Lang)
    (acc : ScoreAcc) : ScoreAcc :=
  let acc1 := scanOne search lang (optText (e.labels.get lang)) acc
  let acc2 := scanOne search lang (optText (e.descriptions.get lang)) acc1
  (e.aliases.get lang).foldl (fun a al => scanOne search lang al a) acc2

/-- text_score (lines 250-285), scanning en, then ru, then uk. -/
def text_score (search : String → String → Bool) (e : Record) : ScoreAcc :=
  scanLang search e .uk (scanLang search e .ru (scanLang search e .en zeroScore))

/- ---------------------------------------------------------------------
Structured evidence (structured_score, lines 288-326).  The resolved
place-country index is a function String → List String; the Python dict
of sets reads through `.get(place_qid, set())`, so an unresolved place is
the empty list.  Python iterates the location_like set in unspecified
order; only the relative order of hit strings depends on it, so the
embedding fixes the order in which the source literal is written.
--------------------------------------------------------------------- -/

def bumpDirect (pid : Pid) (v : String) (acc : ScoreAcc) : ScoreAcc :=
  let pn := pid.toStr
  if v = Q_RUSSIA then
    { acc with ru := acc.ru + WEIGHT_STRONG,
               hits := acc.hits ++ [s!"{pn}:direct:RU:{v}"] }
  else if v = Q_UKRAINE then
    { acc with ua := acc.ua + WEIGHT_STRONG,
               hits := acc.hits ++ [s!"{pn}:direct:UA:{v}"] }
  else if v ∈ OTHER_COUNTRY_HINTS then
    { acc with other := acc.other + WEIGHT_STRONG,
               hits := acc.hits ++ [s!"{pn}:direct:OTHER:{v}"] }
  else acc

def LOCATION_LIKE : List Pid := [.p159, .p131, .p276, .p19, .p740, .p551]

def bumpPlace (pcm : String → List String) (pid : Pid) (place : String)
    (acc : ScoreAcc) : ScoreAcc :=
  let pn := pid.toStr
  (pcm place).foldl (fun a c =>
    if c = Q_RUSSIA then
      { a with ru := a.ru + WEIGHT_MED,
               hits := a.hits ++ [s!"{pn}:place_country:RU:{place}->{c}"] }
    else if c = Q_UKRAINE then
      { a with ua := a.ua + WEIGHT_MED,
               hits := a.hits ++ [s!"{pn}:place_country:UA:{place}->{c}"] }
    else if c ∈ OTHER_COUNTRY_HINTS then
      { a with other := a.other + WEIGHT_MED,
               hits := a.hits ++ [s!"{pn}:place_country:OTHER:{place}->{c}"] }
    else a) acc

def structured_score (pcm : String → List String) (e : Record) : ScoreAcc :=
  let raw := e.raw_attrib_qids
  let acc1 := ATTRIB_PROP_IDS.foldl
    (fun a pid => (raw.get pid).foldl (fun a2 v => bumpDirect pid v a2) a)
    zeroScore
  LOCATION_LIKE.foldl
    (fun a pid => (raw.get pid).foldl (fun a2 p => bumpPlace pcm pid p a2) a)
    acc1

/- ---------------------------------------------------------------------
Per-entity classification (main loop, lines 433-456): combine the two
scorers, decide the label, and attach the attribution detail with the
hit list capped at 200 entries, structured hits first.
--------------------------------------------------------------------- -/

structure AttributionDetail where
  score_ru : Nat
  score_ua : Nat
  score_other : Nat
  s_ru : Nat
  s_ua : Nat
  s_other : Nat
  t_ru : Nat
  t_ua : Nat
  t_other : Nat
  hits : List String
  other_threshold : Int
deriving DecidableEq

structure ClassifiedRecord where
  entity : Record
  ru_ua_attribution : String
  detail : AttributionDetail
deriving DecidableEq

def classify_entity (search : String → String → Bool)
    (pcm : String → List String) (threshold : Int) (e : Record) :
    ClassifiedRecord :=
  let s := structured_score pcm e
  let t := text_score search e
  let ru_score := s.ru + t.ru
  let ua_score := s.ua + t.ua
  let other_score := s.other + t.other
  let label := decide_label ru_score ua_score other_score threshold
  ⟨e, label,
   ⟨ru_score, ua_score, other_score, s.ru, s.ua, s.other, t.ru, t.ua,
    t.other, (s.hits ++ t.hits).take 200, threshold⟩⟩

/-- C10: the stored hit list is the 200-capped concatenation of the
structured hits followed by the text hits: its length never exceeds 200
and every structured hit that survives the cap comes before every text
hit. -/
theorem hits_capped_structured_first (search : String → String → Bool)
    (pcm : String → List String) (threshold : Int) (e : Record) :
    (classify_entity search pcm threshold e).detail.hits =
      (structured_score pcm e).hits.take 200 ++
        (text_score search e).hits.take
          (200 - (structured_score pcm e).hits.length) ∧
    (classify_entity search pcm threshold e).detail.hits.length ≤ 200 := by
  constructor
  · show ((structured_score pcm e).hits ++ (text_score search e).hits).take 200 = _
    rw [List.take_append_eq_append_take]
  · show (((structured_score pcm e).hits ++
      (text_score search e).hits).take 200).length ≤ 200
    rw [List.length_take]
    exact min_le_left _ _

/- ---------------------------------------------------------------------
Scenario of claim C6: an entity whose only evidence is a headquarters
relation (P159) to a place that the index resolves to a single country on
the other-country allow-list.
--------------------------------------------------------------------- -/

theorem other_hints_not_ru_ua {c : String} (hc : c ∈ OTHER_COUNTRY_HINTS) :
    c ≠ Q_RUSSIA ∧ c ≠ Q_UKRAINE := by
  simp only [OTHER_COUNTRY_HINTS, Q_USA, Q_CHINA, Q_GERMANY, Q_UK, Q_FRANCE,
    Q_POLAND, Q_BELARUS, Q_EU, List.mem_cons, List.not_mem_nil, or_false] at hc
  rcases hc with rfl | rfl | rfl | rfl | rfl | rfl | rfl | rfl <;>
    exact ⟨by decide, by decide⟩

/-- An entity whose only populated field is a single P159 target. -/
def hqOnlyEntity (p : String) : Record :=
  { emptyRecord with
    qid := some "Q100"
    raw_attrib_qids := { emptyPidMap with p159 := [p] } }

/-- A place-country index resolving exactly one place to one country. -/
def singletonPcm (p c : String) : String → List String :=
  fun q => if q = p then [c] else []

/-- C6: with the only evidence a headquarters relation to a place that
resolves solely to an allow-listed other country, the structured score is
one MEDIUM-weight other hit (ru 0, ua 0, other 2), the text score is
zero, and at threshold 4 the decided label is mixed, not other. -/
theorem hq_indirect_other_is_mixed (search : String → String → Bool)
    (p c : String) (hp1 : p ≠ Q_RUSSIA) (hp2 : p ≠ Q_UKRAINE)
    (hp3 : p ∉ OTHER_COUNTRY_HINTS) (hc : c ∈ OTHER_COUNTRY_HINTS) :
    structured_score (singletonPcm p c) (hqOnlyEntity p) =
      ⟨0, 0, WEIGHT_MED, [s!"{Pid.p159.toStr}:place_country:OTHER:{p}->{c}"]⟩ ∧
    text_score search (hqOnlyEntity p) = zeroScore ∧
    (classify_entity search (singletonPcm p c) 4
      (hqOnlyEntity p)).ru_ua_attribution = "mixed" := by
  obtain ⟨hc1, hc2⟩ := other_hints_not_ru_ua hc
  have hs : structured_score (singletonPcm p c) (hqOnlyEntity p) =
      ⟨0, 0, WEIGHT_MED, [s!"{Pid.p159.toStr}:place_country:OTHER:{p}->{c}"]⟩ := by
    simp [structured_score, ATTRIB_PROP_IDS, LOCATION_LIKE, hqOnlyEntity,
      emptyPidMap, emptyRecord, PidMap.get, bumpDirect, bumpPlace,
      singletonPcm, zeroScore, hp1, hp2, hp3, hc1, hc2, hc, Pid.toStr]
  have ht : text_score search (hqOnlyEntity p) = zeroScore := rfl
  refine ⟨hs, ht, ?_⟩
  show decide_label
      ((structured_score (singletonPcm p c) (hqOnlyEntity p)).ru +
        (text_score search (hqOnlyEntity p)).ru)
      ((structured_score (singletonPcm p c) (hqOnlyEntity p)).ua +
        (text_score search (hqOnlyEntity p)).ua)
      ((structured_score (singletonPcm p c) (hqOnlyEntity p)).other +
        (text_score search (hqOnlyEntity p)).other) 4 = "mixed"
  rw [hs, ht]
  rfl

/-- Witness for hq_indirect_other_is_mixed: place Q999, country USA. -/
theorem hq_indirect_other_is_mixed_witness :
    (classify_entity (fun _ _ => false) (singletonPcm "Q999" "Q30") 4
      (hqOnlyEntity "Q999")).ru_ua_attribution = "mixed" :=
  (hq_indirect_other_is_mixed (fun _ _ => false) "Q999" "Q30"
    (by decide) (by decide) (by decide) (by decide)).2.2

/- ---------------------------------------------------------------------
The place-country resolver (run_sparql, lines 105-120, and
build_place_country_map, lines 186-247).  run_sparql tries up to
`retries` attempts against a transport `attempt ↦ Except E R`; on the
first success the converted result is returned, on exhaustion the last
stored exception is re-raised (Python `raise last_err`, which raises the
placeholder None when retries = 0, hence the `Option E` error type).

build_place_country_map drops falsy and non-Q-prefixed qids, splits the
rest in chunks of 80 and issues the fixed four-branch SPARQL query per
chunk.  The external graph is an abstract edge-list structure (wdt:P17
country edges and wdt:P131 containment edges); the query's bindings over
it are exactly the four UNION branches of the source text: direct P17,
and one, two or three P131 hops followed by P17.  The accumulated Python
dict of sets is represented by the concatenated binding list read
through `countriesOf` (set semantics — membership).  String.startsWith
is byte-based and kernel-opaque, so the same test is expressed on
`String.data`.
--------------------------------------------------------------------- -/

def strStartsWith (s pre : String) : Bool := pre.data.isPrefixOf s.data

def runAttempts {E R : Type} (transport : Nat → Except E R) :
    Nat → Nat → Option E → Except (Option E) R
  | 0, _, last => .error last
  | n + 1, i, _ =>
    match transport i with
    | .ok r => .ok r
    | .error e => runAttempts transport n (i + 1) (some e)

def run_sparql {E R : Type} (transport : Nat → Except E R) (retries : Nat) :
    Except (Option E) R :=
  runAttempts transport retries 0 none

/-- The external graph the SPARQL endpoint answers from: country edges
(wdt:P17) and administrative-containment edges (wdt:P131). -/
structure Graph where
  p17 : List (String × String)
  p131 : List (String × String)

def p17Of (g : Graph) (a : String) : List String :=
  (g.p17.filter (fun e => e.1 == a)).map Prod.snd

def p131Of (g : Graph) (a : String) : List String :=
  (g.p131.filter (fun e => e.1 == a)).map Prod.snd

/-- Countries reachable from a place by exactly `k` containment hops
followed by one country edge — one UNION branch of the query. -/
def countriesAtDepth (g : Graph) : Nat → String → List String
  | 0, pl => p17Of g pl
  | k + 1, pl => (p131Of g pl).flatMap (fun a => countriesAtDepth g k a)

/-- All four UNION branches of the query for one ?place value. -/
def countriesUpTo3 (g : Graph) (pl : String) : List String :=
  countriesAtDepth g 0 pl ++ countriesAtDepth g 1 pl ++
    countriesAtDepth g 2 pl ++ countriesAtDepth g 3 pl

/-- The bindings the fixed query returns for one VALUES chunk. -/
def sparqlBindings (g : Graph) (chunk : List String) :
    List (String × String) :=
  chunk.flatMap (fun pl => (countriesUpTo3 g pl).map (fun c => (pl, c)))

/-- The batching loop `for i in range(0, len(qids), 80)`. -/
def chunksOf80 (l : List String) : List (List String) :=
  if h : l = [] then []
  else l.take 80 :: chunksOf80 (l.drop 80)
termination_by l.length
decreasing_by
  simp only [List.length_drop]
  have : 0 < l.length := List.length_pos.mpr h
  omega

def resolveBatches {E : Type}
    (transport : List String → Nat → Except E (List (String × String))) :
    List (List String) → Except (Option E) (List (String × String))
  | [] => .ok []
  | ch :: rest =>
    match run_sparql (transport ch) 3 with
    | .error e => .error e
    | .ok bs =>
      match resolveBatches transport rest with
      | .error e => .error e
      | .ok rs => .ok (bs ++ rs)

def build_place_country_map {E : Type}
    (transport : List String → Nat → Except E (List (String × String)))
    (place_qids : List String) : Except (Option E) (List (String × String)) :=
  let filtered := place_qids.filter
    (fun q => !(decide (q = "")) && strStartsWith q "Q")
  if filtered.isEmpty then .ok []
  else resolveBatches transport (chunksOf80 filtered)

/-- Reading the accumulated place-country map: the country set of one
place (`out[place]`, a set — only membership and emptiness are used). -/
def countriesOf (m : List (String × String)) (pl : String) : List String :=
  (m.filter (fun e => e.1 == pl)).map Prod.snd

/-- A containment chain of exactly `k` P131 hops. -/
def chain131 (g : Graph) : Nat → String → String → Prop
  | 0, a, b => a = b
  | k + 1, a, b => ∃ mid, (a, mid) ∈ g.p131 ∧ chain131 g k mid b

/-- The place reaches the country by `k` containment hops followed by
one country edge. -/
def reachesCountry (g : Graph) (k : Nat) (pl c : String) : Prop :=
  ∃ mid, chain131 g k pl mid ∧ (mid, c) ∈ g.p17

/-- A transport that answers every chunk from the abstract graph at the
first attempt. -/
def semTransport (g : Graph) :
    List String → Nat → Except String (List (String × String)) :=
  fun chunk _ => .ok (sparqlBindings g chunk)

/-- A transport that fails every attempt with the same transport error. -/
def failTransport (e : String) :
    List String → Nat → Except String (List (String × String)) :=
  fun _ _ => .error e

theorem chunksOf80_flatten (l : List String) : (chunksOf80 l).flatten = l := by
  rw [chunksOf80]
  by_cases h : l = []
  · rw [dif_pos h]
    simp [h]
  · rw [dif_neg h, List.flatten_cons, chunksOf80_flatten (l.drop 80),
      List.take_append_drop]
termination_by l.length
decreasing_by
  simp only [List.length_drop]
  have : 0 < l.length := List.length_pos.mpr h
  omega

theorem mem_chunksOf80 {pl : String} {l : List String} :
    (∃ ch ∈ chunksOf80 l, pl ∈ ch) ↔ pl ∈ l := by
  rw [← chunksOf80_flatten l, List.mem_flatten]
  rw [chunksOf80_flatten l]

theorem resolveBatches_sem (g : Graph) :
    ∀ chs : List (List String),
      resolveBatches (semTransport g) chs =
        Except.ok ((chs.map (sparqlBindings g)).flatten) := by
  intro chs
  induction chs with
  | nil => rfl
  | cons ch rest ih =>
    simp [resolveBatches, run_sparql, runAttempts, semTransport, ih,
      List.flatten_cons]

theorem mem_p17Of {g : Graph} {a c : String} :
    c ∈ p17Of g a ↔ (a, c) ∈ g.p17 := by
  unfold p17Of
  simp only [List.mem_map, List.mem_filter, beq_iff_eq]
  constructor
  · rintro ⟨⟨x, y⟩, ⟨hx, he⟩, rfl⟩
    simp only at he
    subst he
    exact hx
  · intro h
    exact ⟨(a, c), ⟨h, rfl⟩, rfl⟩

theorem mem_p131Of {g : Graph} {a c : String} :
    c ∈ p131Of g a ↔ (a, c) ∈ g.p131 := by
  unfold p131Of
  simp only [List.mem_map, List.mem_filter, beq_iff_eq]
  constructor
  · rintro ⟨⟨x, y⟩, ⟨hx, he⟩, rfl⟩
    simp only at he
    subst he
    exact hx
  · intro h
    exact ⟨(a, c), ⟨h, rfl⟩, rfl⟩

theorem mem_countriesAtDepth {g : Graph} :
    ∀ (k : Nat) (pl c : String),
      c ∈ countriesAtDepth g k pl ↔ reachesCountry g k pl c := by
  intro k
  induction k with
  | zero =>
    intro pl c
    simp [countriesAtDepth, reachesCountry, chain131, mem_p17Of]
  | succ k ih =>
    intro pl c
    simp only [countriesAtDepth, List.mem_flatMap, reachesCountry, chain131]
    constructor
    · rintro ⟨a, ha, hc⟩
      obtain ⟨mid, hchain, hmid⟩ := (ih a c).mp hc
      exact ⟨mid, ⟨a, mem_p131Of.mp ha, hchain⟩, hmid⟩
    · rintro ⟨mid, ⟨a, hpa, hchain⟩, hmid⟩
      exact ⟨a, mem_p131Of.mpr hpa, (ih a c).mpr ⟨mid, hchain, hmid⟩⟩

theorem mem_countriesUpTo3 {g : Graph} {pl c : String} :
    c ∈ countriesUpTo3 g pl ↔ ∃ k, k ≤ 3 ∧ reachesCountry g k pl c := by
  unfold countriesUpTo3
  simp only [List.mem_append, mem_countriesAtDepth]
  constructor
  · rintro (((h | h) | h) | h)
    exacts [⟨0, by omega, h⟩, ⟨1, by omega, h⟩, ⟨2, by omega, h⟩,
      ⟨3, by omega, h⟩]
  · rintro ⟨k, hk, h⟩
    interval_cases k
    exacts [Or.inl (Or.inl (Or.inl h)), Or.inl (Or.inl (Or.inr h)),
      Or.inl (Or.inr h), Or.inr h]

theorem mem_sparqlBindings {g : Graph} {chunk : List String}
    {pl c : String} :
    (pl, c) ∈ sparqlBindings g chunk ↔
      pl ∈ chunk ∧ ∃ k, k ≤ 3 ∧ reachesCountry g k pl c := by
  unfold sparqlBindings
  simp only [List.mem_flatMap, List.mem_map]
  constructor
  · rintro ⟨x, hx, c', hc', heq⟩
    simp only [Prod.mk.injEq] at heq
    obtain ⟨rfl, rfl⟩ := heq
    exact ⟨hx, mem_countriesUpTo3.mp hc'⟩
  · rintro ⟨hpl, hk⟩
    exact ⟨pl, hpl, c, mem_countriesUpTo3.mpr hk, rfl⟩

theorem mem_countriesOf {m : List (String × String)} {pl c : String} :
    c ∈ countriesOf m pl ↔ (pl, c) ∈ m := by
  unfold countriesOf
  simp only [List.mem_map, List.mem_filter, beq_iff_eq]
  constructor
  · rintro ⟨⟨x, y⟩, ⟨hx, he⟩, rfl⟩
    simp only at he
    subst he
    exact hx
  · intro h
    exact ⟨(pl, c), ⟨h, rfl⟩, rfl⟩

/-- C5: against an always-answering endpoint the resolver succeeds (never
an error), and a country is in a place's resolved set exactly when the
place survives the qid filter and reaches the country through at most
three containment hops followed by one country edge; in particular a
place all of whose chains to countries are longer than three hops
resolves to the empty set. -/
theorem resolver_bounded_depth (g : Graph) (qids : List String)
    (pl c : String) :
    ∃ m, build_place_country_map (semTransport g) qids = Except.ok m ∧
      (c ∈ countriesOf m pl ↔
        pl ∈ qids ∧ pl ≠ "" ∧ strStartsWith pl "Q" = true ∧
          ∃ k, k ≤ 3 ∧ reachesCountry g k pl c) ∧
      ((∀ k, k ≤ 3 → ¬ reachesCountry g k pl c) → c ∉ countriesOf m pl) := by
  unfold build_place_country_map
  have hmemf : ∀ q : String,
      q ∈ qids.filter (fun q => !(decide (q = "")) && strStartsWith q "Q") ↔
        q ∈ qids ∧ q ≠ "" ∧ strStartsWith q "Q" = true := by
    intro q
    rw [List.mem_filter]
    simp [and_assoc]
  by_cases he :
      (qids.filter (fun q => !(decide (q = "")) && strStartsWith q "Q")).isEmpty
  · refine ⟨[], by simp [he], ?_⟩
    have hfalse : ¬ (pl ∈ qids ∧ pl ≠ "" ∧ strStartsWith pl "Q" = true ∧
        ∃ k, k ≤ 3 ∧ reachesCountry g k pl c) := by
      rintro ⟨h1, h2, h3, -⟩
      have hm : pl ∈ qids.filter
          (fun q => !(decide (q = "")) && strStartsWith q "Q") :=
        (hmemf pl).mpr ⟨h1, h2, h3⟩
      rw [List.isEmpty_iff] at he
      rw [he] at hm
      exact absurd hm (List.not_mem_nil pl)
    constructor
    · simp only [countriesOf, List.filter_nil, List.map_nil,
        List.not_mem_nil, false_iff]
      exact hfalse
    · intro _
      simp [countriesOf]
  · have hiff : c ∈ countriesOf
        (((chunksOf80 (qids.filter
          (fun q => !(decide (q = "")) && strStartsWith q "Q"))).map
            (sparqlBindings g)).flatten) pl ↔
        pl ∈ qids ∧ pl ≠ "" ∧ strStartsWith pl "Q" = true ∧
          ∃ k, k ≤ 3 ∧ reachesCountry g k pl c := by
      rw [mem_countriesOf, List.mem_flatten]
      constructor
      · rintro ⟨bs, hbs, hin⟩
        obtain ⟨ch, hch, rfl⟩ := List.mem_map.mp hbs
        obtain ⟨hpl, hk⟩ := mem_sparqlBindings.mp hin
        have hplf : pl ∈ qids.filter
            (fun q => !(decide (q = "")) && strStartsWith q "Q") :=
          mem_chunksOf80.mp ⟨ch, hch, hpl⟩
        obtain ⟨h1, h2, h3⟩ := (hmemf pl).mp hplf
        exact ⟨h1, h2, h3, hk⟩
      · rintro ⟨h1, h2, h3, hk⟩
        obtain ⟨ch, hch, hpl⟩ :=
          mem_chunksOf80.mpr ((hmemf pl).mpr ⟨h1, h2, h3⟩)
        exact ⟨sparqlBindings g ch, List.mem_map_of_mem _ hch,
          mem_sparqlBindings.mpr ⟨hpl, hk⟩⟩
    refine ⟨_, ?_, hiff, ?_⟩
    · rw [if_neg he, resolveBatches_sem]
    · intro hno hc
      obtain ⟨-, -, -, k, hk, hr⟩ := hiff.mp hc
      exact hno k hk hr

/-- A graph needing exactly two containment hops from Q1 to reach C1. -/
def gWitness : Graph := ⟨[("Q3", "C1")], [("Q1", "Q2"), ("Q2", "Q3")]⟩

/-- Witness for resolver_bounded_depth: a two-hop chain resolves. -/
theorem resolver_bounded_depth_witness :
    ∃ m, build_place_country_map (semTransport gWitness) ["Q1"] =
        Except.ok m ∧ "C1" ∈ countriesOf m "Q1" := by
  obtain ⟨m, hm, hiff, -⟩ :=
    resolver_bounded_depth gWitness ["Q1"] "Q1" "C1"
  refine ⟨m, hm, hiff.mpr ⟨by decide, by decide, by decide, 2, by omega, ?_⟩⟩
  exact ⟨"Q3", ⟨"Q2", by decide, "Q3", by decide, rfl⟩, by decide⟩

/-- C7 counterexample: two runs whose in-flight batches are different
(place Q1 vs place Q2) propagate byte-identical failures — the raised
value is just the last transport error, carrying no batch identifiers. -/
theorem resolver_failure_lacks_batch_identifiers :
    build_place_country_map (failTransport "HTTP 504") ["Q1"] =
      build_place_country_map (failTransport "HTTP 504") ["Q2"] ∧
    build_place_country_map (failTransport "HTTP 504") ["Q1"] =
      Except.error (some "HTTP 504") := by
  have h1 : build_place_country_map (failTransport "HTTP 504") ["Q1"] =
      Except.error (some "HTTP 504") := by
    unfold build_place_country_map
    rw [if_neg (by decide), chunksOf80, dif_neg (by decide)]
    rfl
  have h2 : build_place_country_map (failTransport "HTTP 504") ["Q2"] =
      Except.error (some "HTTP 504") := by
    unfold build_place_country_map
    rw [if_neg (by decide), chunksOf80, dif_neg (by decide)]
    rfl
  exact ⟨h1.trans h2.symm, h1⟩

/-- C7 amended: when every attempt of the first batch fails, the
resolver aborts with the last transport error (failed batches are never
silently dropped into a partial index), and run_sparql re-raises exactly
the error of the final attempt; the propagated value does not name the
in-flight identifiers. -/
theorem resolver_retry_exhaustion_propagates_last_error (e : String)
    (qids : List String)
    (h : (qids.filter
      (fun q => !(decide (q = "")) && strStartsWith q "Q")).isEmpty = false) :
    build_place_country_map (failTransport e) qids =
      Except.error (some e) ∧
    (∀ (E R : Type) (es : Nat → E),
      @run_sparql E R (fun i => Except.error (es i)) 3 =
        Except.error (some (es 2))) := by
  constructor
  · unfold build_place_country_map
    rw [if_neg (by simp [h])]
    have hne : qids.filter
        (fun q => !(decide (q = "")) && strStartsWith q "Q") ≠ [] := by
      intro hnil
      rw [hnil] at h
      exact absurd h (by simp)
    rw [chunksOf80, dif_neg hne]
    rfl
  · intro E R es
    rfl

/-- Witness for resolver_retry_exhaustion_propagates_last_error. -/
theorem resolver_retry_exhaustion_witness :
    build_place_country_map (failTransport "HTTP 504") ["Q1"] =
      Except.error (some "HTTP 504") :=
  (resolver_retry_exhaustion_propagates_last_error "HTTP 504" ["Q1"]
    (by decide)).1

/- ---------------------------------------------------------------------
The orchestration of main (lines 400-459): load rows, merge, collect the
referenced place qids, build the index, classify every merged entity.
The CLI threshold is any int and is used as is — main performs no
validation of the threshold or of the (module-constant) weights.
--------------------------------------------------------------------- -/

/-- Place-qid collection (lines 420-427): targets of the six place-like
properties, truthy, Q-prefixed and not the RU/UA country qids, gathered
as a set and passed to the resolver sorted. -/
def collect_place_qids (merged : List Record) : List String :=
  pySortedSet (merged.flatMap (fun e => LOCATION_LIKE.flatMap (fun pid =>
    (e.raw_attrib_qids.get pid).filter (fun q =>
      !(decide (q = "")) && strStartsWith q "Q" &&
        !(decide (q = Q_RUSSIA)) && !(decide (q = Q_UKRAINE))))))

def classify_all (search : String → String → Bool)
    (pcm : String → List String) (threshold : Int)
    (merged : List Record) : List ClassifiedRecord :=
  merged.map (classify_entity search pcm threshold)

def run_pipeline {E : Type} (search : String → String → Bool)
    (transport : List String → Nat → Except E (List (String × String)))
    (threshold : Int) (rows : List Record) :
    Except (Option E) (List ClassifiedRecord) :=
  let merged := merge_records_by_qid rows
  match build_place_country_map transport (collect_place_qids merged) with
  | .error e => .error e
  | .ok m => .ok (classify_all search (countriesOf m) threshold merged)

/-- A transport that answers every chunk with no bindings. -/
def okTransport : List String → Nat → Except String (List (String × String)) :=
  fun _ _ => .ok []

/-- The labels the pipeline assigns, [] when it fails. -/
def pipeline_labels (search : String → String → Bool)
    (transport : List String → Nat → Except String (List (String × String)))
    (threshold : Int) (rows : List Record) : List String :=
  match run_pipeline search transport threshold rows with
  | .ok outs => outs.map ClassifiedRecord.ru_ua_attribution
  | .error _ => []

/-- C9 counterexample: with threshold 0 and with threshold -1 — both
invalid per the claim — the pipeline does not fail fast: the record is
merged, resolved and scored, and (any score being ≥ a non-positive
threshold) comes out labeled other. -/
theorem pipeline_accepts_invalid_threshold :
    pipeline_labels (fun _ _ => false) okTransport 0 [recA] = ["other"] ∧
    pipeline_labels (fun _ _ => false) okTransport (-1) [recA] = ["other"] := by
  constructor <;> rfl

theorem resolveBatches_okTransport :
    ∀ chs : List (List String),
      resolveBatches okTransport chs = Except.ok [] := by
  intro chs
  induction chs with
  | nil => rfl
  | cons ch rest ih =>
    simp [resolveBatches, run_sparql, runAttempts, okTransport, ih]

/-- C9 amended: the program validates no configuration at all — the
weights are fixed module constants and every integer threshold, however
non-positive, is accepted: for every input the pipeline completes and
classifies every merged record under that threshold. -/
theorem pipeline_never_validates_config (search : String → String → Bool)
    (threshold : Int) (rows : List Record) :
    run_pipeline search okTransport threshold rows =
      Except.ok (classify_all search (countriesOf []) threshold
        (merge_records_by_qid rows)) := by
  have hb : build_place_country_map okTransport
      (collect_place_qids (merge_records_by_qid rows)) = Except.ok [] := by
    show (if ((collect_place_qids (merge_records_by_qid rows)).filter
          (fun q => !(decide (q = "")) && strStartsWith q "Q")).isEmpty = true
        then Except.ok []
        else resolveBatches okTransport (chunksOf80 ((collect_place_qids
          (merge_records_by_qid rows)).filter
            (fun q => !(decide (q = "")) && strStartsWith q "Q")))) =
      Except.ok []
    by_cases he : ((collect_place_qids (merge_records_by_qid rows)).filter
        (fun q => !(decide (q = "")) && strStartsWith q "Q")).isEmpty = true
    · rw [if_pos he]
    · rw [if_neg he]
      exact resolveBatches_okTransport _
  simp only [run_pipeline, hb]
